import Mathlib

/-!
Shallow embedding of the dynamic reverse-proxy routing core of mirage-ecs
(the `ReverseProxy` / `proxyHandlers` / `proxyHandler` part of the sources),
together with the static listen-port configuration it reads.

Modelling conventions:
* Go maps are embedded as association lists (`List (key × value)`); the list
  order stands for one admissible iteration order of Go's unspecified map
  iteration order, and Go's `m[k] = v` / `delete(m, k)` become `alInsert` /
  `alErase`.
* `time.Timer` values are embedded as an absolute expiry instant (`deadline :
  Nat`, in seconds): `newProxyHandler` stores `now + proxyHandlerLifetime`,
  `extend` resets it to `now + proxyHandlerLifetime`, and `alive` at instant
  `now` holds iff `now < deadline` (a fired timer means the lifetime has fully
  elapsed).  Every operation that consults liveness takes the current instant
  `now` explicitly.
* `http.Handler` values built by `rproxy.NewSingleHostReverseProxy(destUrl)`
  are embedded as the destination URL string they forward to.
* Functions that mutate shared state in Go return the updated structure
  explicitly; functions that call `log.Printf` on the mutation path also
  return the list of emitted log lines.
-/

set_option autoImplicit false

namespace Mirage

universe u v

/-- Association-list lookup, embedding a Go map read `m[k]` (`none` for a
missing key). -/
def alLookup {α : Type u} {β : Type v} [DecidableEq α] : List (α × β) → α → Option β
  | [], _ => none
  | (k', v') :: rest, k => if k = k' then some v' else alLookup rest k

/-- Association-list store, embedding a Go map assignment `m[k] = v`:
replaces the binding if the key is present, appends it otherwise. -/
def alInsert {α : Type u} {β : Type v} [DecidableEq α] : List (α × β) → α → β → List (α × β)
  | [], k, v => [(k, v)]
  | (k', v') :: rest, k, v =>
    if k = k' then (k, v) :: rest else (k', v') :: alInsert rest k v

/-- Association-list removal, embedding Go's `delete(m, k)`. -/
def alErase {α : Type u} {β : Type v} [DecidableEq α] : List (α × β) → α → List (α × β)
  | [], _ => []
  | (k', v') :: rest, k =>
    if k = k' then rest else (k', v') :: alErase rest k

/-- Modelled after Go `path.getEsc`: reads one (possibly backslash-escaped)
character of a character-class range; `none` on a malformed pattern
(`ErrBadPattern`). -/
def getEsc : List Char → Option (Char × List Char)
  | [] => none
  | c :: rest =>
    if c = '-' ∨ c = ']' then none
    else if c = '\\' then
      match rest with
      | [] => none
      | c2 :: rest2 => some (c2, rest2)
    else some (c, rest)

/-- Modelled after the range-parsing loop of Go `path.Match`'s character-class
case: parses `lo` or `lo-hi` ranges until the closing `]` (which must follow at
least one range); `none` on a malformed pattern.  The first argument is fuel,
instantiated with more than the pattern length, which every step consumes. -/
def scanRanges : Nat → List Char → List (Char × Char) → Option (List (Char × Char) × List Char)
  | 0, _, _ => none
  | fuel + 1, pat, acc =>
    match pat, acc with
    | ']' :: rest, _ :: _ => some (acc, rest)
    | _, _ =>
      match getEsc pat with
      | none => none
      | some (lo, rest1) =>
        match rest1 with
        | '-' :: rest2 =>
          match getEsc rest2 with
          | none => none
          | some (hi, rest3) => scanRanges fuel rest3 ((lo, hi) :: acc)
        | _ => scanRanges fuel rest1 ((lo, lo) :: acc)

/-- A character is inside one of the parsed class ranges. -/
def matchRanges (c : Char) (rs : List (Char × Char)) : Bool :=
  rs.any fun r => r.1 ≤ c && c ≤ r.2

/-- Modelled after Go `path.Match` (the glob matcher the routing table calls
via `path.Match(name, subdomain)`): `*` matches any sequence of
non-`/` characters, `?` any single non-`/` character, `[...]`/`[^...]` a
character class, `\\` escapes; a malformed pattern yields `false` (Go reports
`ErrBadPattern`, and the callers in the routing table discard the error).  The
first argument is fuel, instantiated so that it never runs out: every
recursive call shortens the pattern or the name. -/
def matchGlobFuel : Nat → List Char → List Char → Bool
  | 0, _, _ => false
  | _ + 1, [], name => name.isEmpty
  | fuel + 1, '*' :: ps, name =>
    matchGlobFuel fuel ps name ||
      (match name with
       | [] => false
       | c :: ns => (c != '/') && matchGlobFuel fuel ('*' :: ps) ns)
  | fuel + 1, '?' :: ps, name =>
    (match name with
     | [] => false
     | c :: ns => (c != '/') && matchGlobFuel fuel ps ns)
  | fuel + 1, '\\' :: rest, name =>
    (match rest, name with
     | p :: ps, c :: ns => (p == c) && matchGlobFuel fuel ps ns
     | _, _ => false)
  | fuel + 1, '[' :: rest, name =>
    (match name with
     | [] => false
     | c :: ns =>
       let negBody : Bool × List Char :=
         match rest with
         | '^' :: r2 => (true, r2)
         | r2 => (false, r2)
       match scanRanges (negBody.2.length + 1) negBody.2 [] with
       | none => false
       | some (rs, ps) => (matchRanges c rs != negBody.1) && matchGlobFuel fuel ps ns)
  | fuel + 1, p :: ps, name =>
    (match name with
     | [] => false
     | c :: ns => (p == c) && matchGlobFuel fuel ps ns)

/-- Go `path.Match(pattern, name)` as used by `Exists` and `findHandler`. -/
def pathMatch (pattern name : String) : Bool :=
  matchGlobFuel (pattern.length + name.length + 1) pattern.data name.data

/-- Embeds `strings.Split(host, ".")[0]`: the prefix of `host` before the
first `.` (the whole string when it contains no `.`). -/
def firstLabel (host : String) : String :=
  String.mk (host.data.takeWhile fun c => c ≠ '.')

/-- Embeds `strings.ToLower` (ASCII case folding, which agrees with Go's
Unicode folding on hostname labels). -/
def toLowerStr (s : String) : String :=
  String.mk (s.data.map Char.toLower)

/-- One `{listen, target}` pair of the static `listen:` configuration
(`PortMap` in config.go). -/
structure PortMap where
  listenPort : Int
  targetPort : Int
deriving DecidableEq, Repr

/-- The static `listen:` configuration (`Listen` in config.go); only the
fields the routing core reads are embedded. -/
structure Listen where
  http : List PortMap
  https : List PortMap
deriving DecidableEq, Repr

/-- The static configuration (`Config` in config.go); only the field the
routing core reads (`Listen`) is embedded. -/
structure Config where
  listen : Listen
deriving DecidableEq, Repr

/-- `proxyHandlerLifetime = 30 * time.Second`, in seconds. -/
def proxyHandlerLifetime : Nat := 30

/-- `proxyHandler`: one forwarding handle.  `handler` is the destination URL
wrapped by the single-host reverse proxy; `deadline` embeds the handle's
`time.Timer` as the absolute instant at which the lifetime elapses. -/
structure ProxyHandler where
  handler : String
  deadline : Nat
deriving DecidableEq, Repr

/-- `newProxyHandler(h)`: a fresh handle whose timer runs out at
`now + proxyHandlerLifetime`. -/
def newProxyHandler (h : String) (now : Nat) : ProxyHandler :=
  { handler := h, deadline := now + proxyHandlerLifetime }

/-- `proxyHandler.alive()`: the timer has not fired yet at instant `now`. -/
def ProxyHandler.alive (h : ProxyHandler) (now : Nat) : Bool :=
  now < h.deadline

/-- `proxyHandler.extend()`: `timer.Reset(proxyHandlerLifetime)`. -/
def ProxyHandler.extend (h : ProxyHandler) (now : Nat) : ProxyHandler :=
  { h with deadline := now + proxyHandlerLifetime }

/-- `proxyHandlers`: listen port → backend address → handle
(`map[int]map[string]*proxyHandler`). -/
abbrev ProxyHandlers := List (Int × List (String × ProxyHandler))

/-- The scan loop of `proxyHandlers.Handler`: walks the port bucket in
iteration order, returns the first alive handle, and deletes every dead
handle encountered before it.  Returns the updated bucket and the chosen
handle's destination. -/
def handlerScan (now : Nat) : List (String × ProxyHandler) → List (String × ProxyHandler) × Option String
  | [] => ([], none)
  | (ip, h) :: rest =>
    if h.alive now then ((ip, h) :: rest, some h.handler)
    else handlerScan now rest

/-- `proxyHandlers.Handler(port)`: selects a live handle for `port`, pruning
dead ones encountered by the scan; `(ph', none)` embeds `(nil, false)`. -/
def ProxyHandlers.Handler (ph : ProxyHandlers) (now : Nat) (port : Int) : ProxyHandlers × Option String :=
  match alLookup ph port with
  | none => (ph, none)
  | some handlers =>
    if handlers.isEmpty then (ph, none)
    else
      let sc := handlerScan now handlers
      (alInsert ph port sc.1, sc.2)

/-- `proxyHandlers.exists(port, ipaddress)` (named `existsCheck` here because
`exists` is reserved): if the handle at that slot is alive it is renewed and
`true` returned; if it is dead it is deleted and `false` returned.  Also
returns the log lines the Go code prints on this path. -/
def ProxyHandlers.existsCheck (ph : ProxyHandlers) (now : Nat) (port : Int) (ipaddress : String) :
    ProxyHandlers × Bool × List String :=
  match alLookup ph port with
  | none => (ph, false, [])
  | some bucket =>
    match alLookup bucket ipaddress with
    | none => (ph, false, [])
    | some h =>
      if h.alive now then
        (alInsert ph port (alInsert bucket ipaddress (h.extend now)), true,
          [s!"[debug] proxy handler to {ipaddress} extends lifetime"])
      else
        (alInsert ph port (alErase bucket ipaddress), false,
          [s!"[info] proxy handler to {ipaddress} is dead"])

/-- `proxyHandlers.add(port, ipaddress, h)`: creates the port bucket when
missing and stores a fresh handle at the address slot.  Also returns the log
line the Go code prints. -/
def ProxyHandlers.add (ph : ProxyHandlers) (now : Nat) (port : Int) (ipaddress : String) (h : String) :
    ProxyHandlers × List String :=
  let bucket := (alLookup ph port).getD []
  (alInsert ph port (alInsert bucket ipaddress (newProxyHandler h now)),
    [s!"[info] new proxy handler to {ipaddress}"])

/-- `ReverseProxy`: the configuration plus the routing table
`domainMap : map[string]proxyHandlers`.  The `sync.RWMutex` serialises the
operations below; the embedding therefore presents each operation as one
atomic function on the state. -/
structure ReverseProxy where
  cfg : Config
  domainMap : List (String × ProxyHandlers)
deriving DecidableEq, Repr

/-- `NewReverseProxy(cfg)`: empty routing table. -/
def NewReverseProxy (cfg : Config) : ReverseProxy :=
  { cfg := cfg, domainMap := [] }

/-- The destination URL string `fmt.Sprintf("http://%s:%d", ipaddress, targetPort)`. -/
def destUrl (ipaddress : String) (targetPort : Int) : String :=
  s!"http://{ipaddress}:{targetPort}"

/-- One iteration of the `for _, v := range r.cfg.Listen.HTTP` loop of
`ReverseProxy.AddSubdomain`, acting on the accumulated (bucket set, log)
pair. -/
def addStep (now : Nat) (subdomain ipaddress : String) (targetPort : Int)
    (acc : ProxyHandlers × List String) (v : PortMap) : ProxyHandlers × List String :=
  if v.targetPort ≠ targetPort then acc
  else
    let ec := acc.1.existsCheck now v.listenPort ipaddress
    if ec.2.1 then (ec.1, acc.2 ++ ec.2.2)
    else
      let ad := ec.1.add now v.listenPort ipaddress (destUrl ipaddress v.targetPort)
      let lp := v.listenPort
      (ad.1, acc.2 ++ ec.2.2 ++ ad.2 ++
        [s!"[info] add subdomain: {subdomain}:{lp} -> {ipaddress}:{targetPort}"])

/-- `ReverseProxy.AddSubdomain(subdomain, ipaddress, targetPort)`, also
returning the log lines emitted by the mutation path.  For every configured
HTTP listen port whose target port equals `targetPort`, it renews the live
handle for `ipaddress` or installs a fresh reverse proxy to
`http://ipaddress:targetPort`; finally it stores the (possibly unchanged)
bucket set back under the verbatim `subdomain` key. -/
def ReverseProxy.AddSubdomainLog (r : ReverseProxy) (now : Nat) (subdomain ipaddress : String)
    (targetPort : Int) : ReverseProxy × List String :=
  let ph0 := (alLookup r.domainMap subdomain).getD []
  let res := r.cfg.listen.http.foldl (addStep now subdomain ipaddress targetPort) (ph0, [])
  ({ r with domainMap := alInsert r.domainMap subdomain res.1 }, res.2)

/-- `ReverseProxy.AddSubdomain`, state part only. -/
def ReverseProxy.AddSubdomain (r : ReverseProxy) (now : Nat) (subdomain ipaddress : String)
    (targetPort : Int) : ReverseProxy :=
  (r.AddSubdomainLog now subdomain ipaddress targetPort).1

/-- `ReverseProxy.findHandler(subdomain, port)`: exact key first, then the
first registered pattern (in iteration order) that glob-matches; the chosen
entry's bucket scan may prune dead handles, so the updated table is returned
together with the chosen destination (`none` embeds `nil`). -/
def ReverseProxy.findHandler (r : ReverseProxy) (now : Nat) (subdomain : String) (port : Int) :
    ReverseProxy × Option String :=
  match alLookup r.domainMap subdomain with
  | some ph =>
    let hr := ph.Handler now port
    ({ r with domainMap := alInsert r.domainMap subdomain hr.1 }, hr.2)
  | none =>
    match r.domainMap.find? (fun np => pathMatch np.1 subdomain) with
    | none => (r, none)
    | some np =>
      let hr := np.2.Handler now port
      ({ r with domainMap := alInsert r.domainMap np.1 hr.1 }, hr.2)

/-- `ReverseProxy.Exists(subdomain)`: exact key, or any registered pattern
that glob-matches.  The Go code only reads under `RLock`, so the embedding is
a pure predicate on the table. -/
def ReverseProxy.Exists (r : ReverseProxy) (subdomain : String) : Bool :=
  (alLookup r.domainMap subdomain).isSome ||
    r.domainMap.any fun np => pathMatch np.1 subdomain

/-- `ReverseProxy.Subdomains()`: all registered domain keys, in iteration
order. -/
def ReverseProxy.Subdomains (r : ReverseProxy) : List String :=
  r.domainMap.map Prod.fst

/-- `ReverseProxy.RemoveSubdomain(subdomain)`: `delete(r.domainMap, subdomain)`. -/
def ReverseProxy.RemoveSubdomain (r : ReverseProxy) (subdomain : String) : ReverseProxy :=
  { r with domainMap := alErase r.domainMap subdomain }

/-- `ReverseProxy.ServeHTTPWithPort(w, req, port)`: the dispatcher lowercases
the first label of the request host and asks `findHandler`; `none` embeds the
404 branch, `some dest` the proxied branch. -/
def ReverseProxy.ServeHTTPWithPort (r : ReverseProxy) (now : Nat) (host : String) (port : Int) :
    ReverseProxy × Option String :=
  r.findHandler now (toLowerStr (firstLabel host)) port

/-- `proxyControl`: one control action (`Action` is the string-typed
`proxyAction`). -/
structure ProxyControl where
  Action : String
  Subdomain : String
  IPAddress : String
  Port : Int
deriving DecidableEq, Repr

/-- `ReverseProxy.Modify(action)`: dispatches `Add` / `Remove`; an unknown
action only logs and leaves the table unchanged. -/
def ReverseProxy.Modify (r : ReverseProxy) (now : Nat) (a : ProxyControl) : ReverseProxy :=
  if a.Action = "Add" then r.AddSubdomain now a.Subdomain a.IPAddress a.Port
  else if a.Action = "Remove" then r.RemoveSubdomain a.Subdomain
  else r

/-- The routing-table states reachable from `NewReverseProxy cfg` by the
operations that touch the table: `AddSubdomain`, `RemoveSubdomain`, and the
pruning performed by `findHandler` (hence also by `ServeHTTPWithPort` and
`Modify`; `Exists` and `Subdomains` do not write). -/
inductive Reachable (cfg : Config) : ReverseProxy → Prop
  | init : Reachable cfg (NewReverseProxy cfg)
  | add (r : ReverseProxy) (now : Nat) (d ip : String) (tp : Int) :
      Reachable cfg r → Reachable cfg (r.AddSubdomain now d ip tp)
  | remove (r : ReverseProxy) (d : String) :
      Reachable cfg r → Reachable cfg (r.RemoveSubdomain d)
  | lookup (r : ReverseProxy) (now : Nat) (d : String) (p : Int) :
      Reachable cfg r → Reachable cfg (r.findHandler now d p).1

/-- A concrete configuration with one HTTP mapping (listen 80 → target 5000)
and no HTTPS mapping, used by the concrete instances below. -/
def cfgW : Config :=
  { listen := { http := [{ listenPort := 80, targetPort := 5000 }], https := [] } }

/-- A concrete configuration whose HTTPS list mentions listen port 443, which
the HTTP list does not. -/
def cfgHttps : Config :=
  { listen := { http := [{ listenPort := 80, targetPort := 5000 }],
                https := [{ listenPort := 443, targetPort := 5000 }] } }

/-- A concrete table with the mixed-case key "Foo" registered. -/
def rFoo : ReverseProxy := (NewReverseProxy cfgW).AddSubdomain 0 "Foo" "10.0.0.1" 5000

/-- A concrete table with the wildcard pattern "pr-*" registered. -/
def rPr : ReverseProxy := (NewReverseProxy cfgW).AddSubdomain 0 "pr-*" "10.0.0.1" 5000

/-- A concrete table with both the exact key "foo" and the pattern "f*"
registered. -/
def rBoth : ReverseProxy :=
  ((NewReverseProxy cfgW).AddSubdomain 0 "foo" "10.0.0.1" 5000).AddSubdomain 0 "f*" "10.0.0.2" 5000

/-- A concrete table with a registered domain whose only port bucket is empty
(no handles at all). -/
def rDead : ReverseProxy := { cfg := cfgW, domainMap := [("dead", [(80, [])])] }

/-- Proof-internal invariant: every port bucket present in `ph` consists of
exactly the single fresh handle `(ip, H)`. -/
def onlyFresh (ip : String) (H : ProxyHandler) (ph : ProxyHandlers) : Prop :=
  ∀ q b, alLookup ph q = some b → b = [(ip, H)]

/-! ### Association-list lemmas -/

theorem alLookup_insert_self {α : Type u} {β : Type v} [DecidableEq α]
    (l : List (α × β)) (k : α) (v : β) :
    alLookup (alInsert l k v) k = some v := by
  induction l with
  | nil => simp [alInsert, alLookup]
  | cons p rest ih =>
    obtain ⟨k', v'⟩ := p
    by_cases h : k = k'
    · simp [alInsert, alLookup, h]
    · simp [alInsert, alLookup, h, ih]

theorem alLookup_insert_ne {α : Type u} {β : Type v} [DecidableEq α]
    (l : List (α × β)) (k k'' : α) (v : β) (h : k'' ≠ k) :
    alLookup (alInsert l k v) k'' = alLookup l k'' := by
  induction l with
  | nil => simp [alInsert, alLookup, h]
  | cons p rest ih =>
    obtain ⟨k', v'⟩ := p
    by_cases hk : k = k'
    · subst hk
      simp [alInsert, alLookup, h]
    · by_cases hk'' : k'' = k'
      · simp [alInsert, alLookup, hk, hk'']
      · simp [alInsert, alLookup, hk, hk'', ih]

theorem mem_alInsert {α : Type u} {β : Type v} [DecidableEq α]
    {l : List (α × β)} {k : α} {v : β} {x : α × β} (h : x ∈ alInsert l k v) :
    x = (k, v) ∨ x ∈ l := by
  induction l with
  | nil => simpa [alInsert] using h
  | cons p rest ih =>
    obtain ⟨k', v'⟩ := p
    by_cases hk : k = k'
    · simp only [alInsert, if_pos hk, List.mem_cons] at h
      rcases h with h | h
      · exact Or.inl h
      · exact Or.inr (List.mem_cons_of_mem _ h)
    · simp only [alInsert, if_neg hk, List.mem_cons] at h
      rcases h with h | h
      · exact Or.inr (by simp [h])
      · rcases ih h with h' | h'
        · exact Or.inl h'
        · exact Or.inr (List.mem_cons_of_mem _ h')

theorem alLookup_mem {α : Type u} {β : Type v} [DecidableEq α]
    {l : List (α × β)} {k : α} {v : β} (h : alLookup l k = some v) :
    (k, v) ∈ l := by
  induction l with
  | nil => simp [alLookup] at h
  | cons p rest ih =>
    obtain ⟨k', v'⟩ := p
    by_cases hk : k = k'
    · simp only [alLookup, if_pos hk, Option.some.injEq] at h
      simp [hk, h]
    · simp only [alLookup, if_neg hk] at h
      exact List.mem_cons_of_mem _ (ih h)

theorem alInsert_map_fst_of_mem {α : Type u} {β : Type v} [DecidableEq α]
    {l : List (α × β)} {k : α} (v : β) (h : k ∈ l.map Prod.fst) :
    (alInsert l k v).map Prod.fst = l.map Prod.fst := by
  induction l with
  | nil => simp at h
  | cons p rest ih =>
    obtain ⟨k', v'⟩ := p
    by_cases hk : k = k'
    · simp [alInsert, hk]
    · simp only [List.map_cons, List.mem_cons] at h
      rcases h with h | h

      · exact absurd h hk
      · simp [alInsert, hk, ih h]

theorem alInsert_map_fst_of_not_mem {α : Type u} {β : Type v} [DecidableEq α]
    {l : List (α × β)} {k : α} (v : β) (h : k ∉ l.map Prod.fst) :
    (alInsert l k v).map Prod.fst = l.map Prod.fst ++ [k] := by
  induction l with
  | nil => simp [alInsert]
  | cons p rest ih =>
    obtain ⟨k', v'⟩ := p
    simp only [List.map_cons, List.mem_cons] at h
    push_neg at h
    simp [alInsert, h.1, ih h.2]

theorem alInsert_nodup {α : Type u} {β : Type v} [DecidableEq α]
    {l : List (α × β)} {k : α} (v : β) (h : (l.map Prod.fst).Nodup) :
    ((alInsert l k v).map Prod.fst).Nodup := by
  by_cases hk : k ∈ l.map Prod.fst
  · rwa [alInsert_map_fst_of_mem v hk]
  · rw [alInsert_map_fst_of_not_mem v hk]
    simp [List.nodup_append, h, hk]

theorem alErase_sublist {α : Type u} {β : Type v} [DecidableEq α]
    (l : List (α × β)) (k : α) : List.Sublist (alErase l k) l := by
  induction l with
  | nil => simp [alErase]
  | cons p rest ih =>
    obtain ⟨k', v'⟩ := p
    by_cases hk : k = k'
    · simp only [alErase, if_pos hk]
      exact List.sublist_cons_self _ _
    · simp only [alErase, if_neg hk]
      exact ih.cons₂ _

theorem handlerScan_fst_sublist (now : Nat) (b : List (String × ProxyHandler)) :
    List.Sublist (handlerScan now b).1 b := by
  induction b with
  | nil => simp [handlerScan]
  | cons p rest ih =>
    obtain ⟨ip, h⟩ := p
    by_cases ha : h.alive now
    · simp [handlerScan, ha]
    · simp only [handlerScan, if_neg ha]
      exact ih.trans (List.sublist_cons_self _ _)

/-! ### Lemmas about one iteration of the `AddSubdomain` loop -/

theorem existsCheck_fst_frame (ph : ProxyHandlers) (now : Nat) (port : Int) (ip : String)
    (q : Int) (hq : q ≠ port) :
    alLookup (ph.existsCheck now port ip).1 q = alLookup ph q := by
  unfold ProxyHandlers.existsCheck
  split
  · rfl
  · split
    · rfl
    · split
      · simpa using alLookup_insert_ne _ _ _ _ hq
      · simpa using alLookup_insert_ne _ _ _ _ hq

theorem add_fst_frame (ph : ProxyHandlers) (now : Nat) (port : Int) (ip hs : String)
    (q : Int) (hq : q ≠ port) :
    alLookup (ph.add now port ip hs).1 q = alLookup ph q := by
  unfold ProxyHandlers.add
  exact alLookup_insert_ne _ _ _ _ hq

theorem addStep_skip (now : Nat) (sub ip : String) (tp : Int)
    (acc : ProxyHandlers × List String) (v : PortMap) (ht : v.targetPort ≠ tp) :
    addStep now sub ip tp acc v = acc := by
  simp [addStep, ht]

theorem addStep_fst_frame (now : Nat) (sub ip : String) (tp : Int)
    (acc : ProxyHandlers × List String) (v : PortMap) (q : Int) (hq : q ≠ v.listenPort) :
    alLookup (addStep now sub ip tp acc v).1 q = alLookup acc.1 q := by
  by_cases ht : v.targetPort = tp
  · simp only [addStep, ht, ne_eq, not_true_eq_false, if_false]
    by_cases he : (acc.1.existsCheck now v.listenPort ip).2.1
    · simp only [he, if_true]
      exact existsCheck_fst_frame _ _ _ _ _ hq
    · simp only [he, Bool.false_eq_true, if_false]
      rw [add_fst_frame _ _ _ _ _ _ hq]
      exact existsCheck_fst_frame _ _ _ _ _ hq
  · rw [addStep_skip _ _ _ _ _ _ ht]

theorem addStep_onlyFresh (now : Nat) (sub ip : String) (tp : Int)
    (acc : ProxyHandlers × List String) (v : PortMap)
    (hP : onlyFresh ip (newProxyHandler (destUrl ip tp) now) acc.1) :
    onlyFresh ip (newProxyHandler (destUrl ip tp) now) (addStep now sub ip tp acc v).1 ∧
      (v.targetPort = tp →
        alLookup (addStep now sub ip tp acc v).1 v.listenPort
          = some [(ip, newProxyHandler (destUrl ip tp) now)]) := by
  by_cases ht : v.targetPort = tp
  · have hstep : (addStep now sub ip tp acc v).1
        = alInsert acc.1 v.listenPort [(ip, newProxyHandler (destUrl ip tp) now)] := by
      simp only [addStep, ht, ne_eq, not_true_eq_false, if_false]
      cases h1 : alLookup acc.1 v.listenPort with
      | none =>
        simp [ProxyHandlers.existsCheck, ProxyHandlers.add, h1, ht, alInsert]
      | some bucket =>
        have hb := hP _ _ h1
        subst hb
        have halive : (newProxyHandler (destUrl ip tp) now).alive now = true := by
          simp [ProxyHandler.alive, newProxyHandler, proxyHandlerLifetime]
        have hext : (newProxyHandler (destUrl ip tp) now).extend now
            = newProxyHandler (destUrl ip tp) now := by
          simp [ProxyHandler.extend, newProxyHandler]
        simp [ProxyHandlers.existsCheck, h1, alLookup, halive, hext, alInsert]
    constructor
    · intro q b hqb
      by_cases hq : q = v.listenPort
      · subst hq
        rw [hstep, alLookup_insert_self] at hqb
        exact (Option.some.injEq _ _ ▸ hqb).symm
      · rw [hstep, alLookup_insert_ne _ _ _ _ hq] at hqb
        exact hP _ _ hqb
    · intro _
      rw [hstep, alLookup_insert_self]
  · rw [addStep_skip _ _ _ _ _ _ ht]
    exact ⟨hP, fun h => absurd h ht⟩

theorem addStep_fresh_present (now : Nat) (sub ip : String) (tp : Int)
    (acc : ProxyHandlers × List String) (v : PortMap) (q : Int)
    (hP : onlyFresh ip (newProxyHandler (destUrl ip tp) now) acc.1)
    (hq : alLookup acc.1 q = some [(ip, newProxyHandler (destUrl ip tp) now)]) :
    alLookup (addStep now sub ip tp acc v).1 q
      = some [(ip, newProxyHandler (destUrl ip tp) now)] := by
  by_cases hql : q = v.listenPort
  · subst hql
    by_cases ht : v.targetPort = tp
    · exact (addStep_onlyFresh now sub ip tp acc v hP).2 ht
    · rw [addStep_skip _ _ _ _ _ _ ht]
      exact hq
  · rw [addStep_fst_frame _ _ _ _ _ _ _ hql]
    exact hq

/-! ### Lemmas about the whole `AddSubdomain` loop -/

theorem foldl_addStep_onlyFresh (now : Nat) (sub ip : String) (tp : Int)
    (l : List PortMap) (acc : ProxyHandlers × List String)
    (hP : onlyFresh ip (newProxyHandler (destUrl ip tp) now) acc.1) :
    onlyFresh ip (newProxyHandler (destUrl ip tp) now)
      (l.foldl (addStep now sub ip tp) acc).1 := by
  induction l generalizing acc with
  | nil => exact hP
  | cons v rest ih =>
    exact ih _ (addStep_onlyFresh now sub ip tp acc v hP).1

theorem foldl_addStep_present (now : Nat) (sub ip : String) (tp : Int)
    (l : List PortMap) (acc : ProxyHandlers × List String) (q : Int)
    (hP : onlyFresh ip (newProxyHandler (destUrl ip tp) now) acc.1)
    (hq : alLookup acc.1 q = some [(ip, newProxyHandler (destUrl ip tp) now)]) :
    alLookup (l.foldl (addStep now sub ip tp) acc).1 q
      = some [(ip, newProxyHandler (destUrl ip tp) now)] := by
  induction l generalizing acc with
  | nil => exact hq
  | cons v rest ih =>
    exact ih _ (addStep_onlyFresh now sub ip tp acc v hP).1
      (addStep_fresh_present now sub ip tp acc v q hP hq)

theorem foldl_addStep_matching (now : Nat) (sub ip : String) (tp : Int)
    (l : List PortMap) (acc : ProxyHandlers × List String)
    (hP : onlyFresh ip (newProxyHandler (destUrl ip tp) now) acc.1) :
    ∀ v ∈ l, v.targetPort = tp →
      alLookup (l.foldl (addStep now sub ip tp) acc).1 v.listenPort
        = some [(ip, newProxyHandler (destUrl ip tp) now)] := by
  induction l generalizing acc with
  | nil => intro v hv; simp at hv
  | cons w rest ih =>
    intro v hv htv
    rcases List.mem_cons.mp hv with hv | hv
    · subst hv
      exact foldl_addStep_present now sub ip tp rest _ v.listenPort
        (addStep_onlyFresh now sub ip tp acc v hP).1
        ((addStep_onlyFresh now sub ip tp acc v hP).2 htv)
    · exact ih _ (addStep_onlyFresh now sub ip tp acc w hP).1 v hv htv

theorem foldl_addStep_skip_all (now : Nat) (sub ip : String) (tp : Int)
    (l : List PortMap) (acc : ProxyHandlers × List String)
    (h : ∀ v ∈ l, v.targetPort ≠ tp) :
    l.foldl (addStep now sub ip tp) acc = acc := by
  induction l generalizing acc with
  | nil => rfl
  | cons v rest ih =>
    rw [List.foldl_cons, addStep_skip _ _ _ _ _ _ (h v (List.mem_cons_self _ _))]
    exact ih _ fun w hw => h w (List.mem_cons_of_mem _ hw)

theorem foldl_addStep_port_frame (now : Nat) (sub ip : String) (tp : Int)
    (l : List PortMap) (acc : ProxyHandlers × List String) (q : Int)
    (h : ∀ v ∈ l, q ≠ v.listenPort) :
    alLookup (l.foldl (addStep now sub ip tp) acc).1 q = alLookup acc.1 q := by
  induction l generalizing acc with
  | nil => rfl
  | cons v rest ih =>
    rw [List.foldl_cons, ih _ fun w hw => h w (List.mem_cons_of_mem _ hw),
      addStep_fst_frame _ _ _ _ _ _ _ (h v (List.mem_cons_self _ _))]

/-! ### Case characterizations of `existsCheck` -/

theorem existsCheck_eq_none (ph : ProxyHandlers) (now : Nat) (port : Int) (ip : String)
    (h1 : alLookup ph port = none) :
    ph.existsCheck now port ip = (ph, false, []) := by
  simp [ProxyHandlers.existsCheck, h1]

theorem existsCheck_eq_noip (ph : ProxyHandlers) (now : Nat) (port : Int) (ip : String)
    (bucket : List (String × ProxyHandler)) (h1 : alLookup ph port = some bucket)
    (h2 : alLookup bucket ip = none) :
    ph.existsCheck now port ip = (ph, false, []) := by
  simp [ProxyHandlers.existsCheck, h1, h2]

theorem existsCheck_eq_alive (ph : ProxyHandlers) (now : Nat) (port : Int) (ip : String)
    (bucket : List (String × ProxyHandler)) (h : ProxyHandler)
    (h1 : alLookup ph port = some bucket) (h2 : alLookup bucket ip = some h)
    (ha : h.alive now = true) :
    ph.existsCheck now port ip
      = (alInsert ph port (alInsert bucket ip (h.extend now)), true,
          [s!"[debug] proxy handler to {ip} extends lifetime"]) := by
  simp [ProxyHandlers.existsCheck, h1, h2, ha]

theorem existsCheck_eq_dead (ph : ProxyHandlers) (now : Nat) (port : Int) (ip : String)
    (bucket : List (String × ProxyHandler)) (h : ProxyHandler)
    (h1 : alLookup ph port = some bucket) (h2 : alLookup bucket ip = some h)
    (ha : h.alive now = false) :
    ph.existsCheck now port ip
      = (alInsert ph port (alErase bucket ip), false,
          [s!"[info] proxy handler to {ip} is dead"]) := by
  simp [ProxyHandlers.existsCheck, h1, h2, ha]

/-! ### Preservation of per-bucket address uniqueness -/

theorem nodup_existsCheck (ph : ProxyHandlers) (now : Nat) (port : Int) (ip : String)
    (h : ∀ pb ∈ ph, (pb.2.map Prod.fst).Nodup) :
    ∀ pb ∈ (ph.existsCheck now port ip).1, (pb.2.map Prod.fst).Nodup := by
  cases h1 : alLookup ph port with
  | none =>
    rw [existsCheck_eq_none _ _ _ _ h1]
    exact h
  | some bucket =>
    have hbnod : (bucket.map Prod.fst).Nodup := h _ (alLookup_mem h1)
    cases h2 : alLookup bucket ip with
    | none =>
      rw [existsCheck_eq_noip _ _ _ _ _ h1 h2]
      exact h
    | some hh =>
      by_cases ha : hh.alive now
      · rw [existsCheck_eq_alive _ _ _ _ _ _ h1 h2 ha]
        intro pb hpb
        rcases mem_alInsert hpb with he | he
        · rw [he]
          exact alInsert_nodup _ hbnod
        · exact h _ he
      · rw [existsCheck_eq_dead _ _ _ _ _ _ h1 h2 (by simpa using ha)]
        intro pb hpb
        rcases mem_alInsert hpb with he | he
        · rw [he]
          exact List.Nodup.sublist ((alErase_sublist bucket ip).map Prod.fst) hbnod
        · exact h _ he

theorem nodup_add (ph : ProxyHandlers) (now : Nat) (port : Int) (ip hs : String)
    (h : ∀ pb ∈ ph, (pb.2.map Prod.fst).Nodup) :
    ∀ pb ∈ (ph.add now port ip hs).1, (pb.2.map Prod.fst).Nodup := by
  have hbnod : (((alLookup ph port).getD []).map Prod.fst).Nodup := by
    cases h1 : alLookup ph port with
    | none => simp
    | some bucket => simpa using h _ (alLookup_mem h1)
  intro pb hpb
  rcases mem_alInsert hpb with he | he
  · rw [he]
    exact alInsert_nodup _ hbnod
  · exact h _ he

theorem nodup_addStep (now : Nat) (sub ip : String) (tp : Int)
    (acc : ProxyHandlers × List String) (v : PortMap)
    (h : ∀ pb ∈ acc.1, (pb.2.map Prod.fst).Nodup) :
    ∀ pb ∈ (addStep now sub ip tp acc v).1, (pb.2.map Prod.fst).Nodup := by
  by_cases ht : v.targetPort = tp
  · simp only [addStep, ht, ne_eq, not_true_eq_false, if_false]
    by_cases he : (acc.1.existsCheck now v.listenPort ip).2.1
    · simp only [he, if_true]
      exact nodup_existsCheck _ _ _ _ h
    · simp only [he, Bool.false_eq_true, if_false]
      exact nodup_add _ _ _ _ _ (nodup_existsCheck _ _ _ _ h)
  · rw [addStep_skip _ _ _ _ _ _ ht]
    exact h

theorem nodup_foldl (now : Nat) (sub ip : String) (tp : Int) (l : List PortMap)
    (acc : ProxyHandlers × List String)
    (h : ∀ pb ∈ acc.1, (pb.2.map Prod.fst).Nodup) :
    ∀ pb ∈ (l.foldl (addStep now sub ip tp) acc).1, (pb.2.map Prod.fst).Nodup := by
  induction l generalizing acc with
  | nil => exact h
  | cons v rest ih => exact ih _ (nodup_addStep now sub ip tp acc v h)

theorem nodup_handlerScan (now : Nat) (b : List (String × ProxyHandler))
    (h : (b.map Prod.fst).Nodup) : ((handlerScan now b).1.map Prod.fst).Nodup :=
  List.Nodup.sublist ((handlerScan_fst_sublist now b).map Prod.fst) h

theorem nodup_Handler (ph : ProxyHandlers) (now : Nat) (port : Int)
    (h : ∀ pb ∈ ph, (pb.2.map Prod.fst).Nodup) :
    ∀ pb ∈ (ph.Handler now port).1, (pb.2.map Prod.fst).Nodup := by
  unfold ProxyHandlers.Handler
  cases h1 : alLookup ph port with
  | none => exact h
  | some handlers =>
    by_cases he : handlers.isEmpty
    · simp only [he, if_true]
      exact h
    · simp only [he, Bool.false_eq_true, if_false]
      intro pb hpb
      rcases mem_alInsert hpb with heq | heq
      · rw [heq]
        exact nodup_handlerScan now handlers (h _ (alLookup_mem h1))
      · exact h _ heq

theorem Handler_of_lookup_none (ph : ProxyHandlers) (now : Nat) (port : Int)
    (h : alLookup ph port = none) : ph.Handler now port = (ph, none) := by
  unfold ProxyHandlers.Handler
  rw [h]

theorem Handler_of_singleton_alive (ph : ProxyHandlers) (now : Nat) (port : Int)
    (ip : String) (H : ProxyHandler) (h : alLookup ph port = some [(ip, H)])
    (ha : H.alive now = true) :
    ph.Handler now port = (alInsert ph port [(ip, H)], some H.handler) := by
  unfold ProxyHandlers.Handler
  rw [h]
  simp [handlerScan, ha]

theorem Handler_of_singleton_dead (ph : ProxyHandlers) (now : Nat) (port : Int)
    (ip : String) (H : ProxyHandler) (h : alLookup ph port = some [(ip, H)])
    (ha : H.alive now = false) :
    ph.Handler now port = (alInsert ph port [], none) := by
  unfold ProxyHandlers.Handler
  rw [h]
  simp [handlerScan, ha]

theorem findHandler_exact (r : ReverseProxy) (now : Nat) (d : String) (port : Int)
    (ph : ProxyHandlers) (h : alLookup r.domainMap d = some ph) :
    r.findHandler now d port
      = ({ r with domainMap := alInsert r.domainMap d (ph.Handler now port).1 },
          (ph.Handler now port).2) := by
  unfold ReverseProxy.findHandler
  rw [h]

/-! ### `AddSubdomain` on a fresh table -/

theorem addSubdomain_empty_spec (cfg : Config) (t0 : Nat) (d ip : String) (tp : Int) :
    ∃ ph : ProxyHandlers,
      ((NewReverseProxy cfg).AddSubdomain t0 d ip tp).domainMap = [(d, ph)] ∧
      onlyFresh ip (newProxyHandler (destUrl ip tp) t0) ph ∧
      ∀ v ∈ cfg.listen.http, v.targetPort = tp →
        alLookup ph v.listenPort = some [(ip, newProxyHandler (destUrl ip tp) t0)] := by
  refine ⟨(cfg.listen.http.foldl (addStep t0 d ip tp) ([], [])).1, rfl, ?_, ?_⟩
  · exact foldl_addStep_onlyFresh t0 d ip tp _ _ (fun q b h => by simp [alLookup] at h)
  · exact foldl_addStep_matching t0 d ip tp _ _ (fun q b h => by simp [alLookup] at h)

theorem findHandler_singleton_found (cfg : Config) (t0 t1 : Nat) (d ip : String) (tp : Int)
    (L : PortMap) (hL : L ∈ cfg.listen.http) (htp : L.targetPort = tp)
    (ht : t1 < t0 + proxyHandlerLifetime) :
    (((NewReverseProxy cfg).AddSubdomain t0 d ip tp).findHandler t1 d L.listenPort).2
      = some (destUrl ip tp) := by
  obtain ⟨ph, hdm, _hP, hpres⟩ := addSubdomain_empty_spec cfg t0 d ip tp
  have hb := hpres L hL htp
  have halive : (newProxyHandler (destUrl ip tp) t0).alive t1 = true := by
    simpa [ProxyHandler.alive, newProxyHandler] using ht
  have hlk : alLookup ((NewReverseProxy cfg).AddSubdomain t0 d ip tp).domainMap d = some ph := by
    rw [hdm]; simp [alLookup]
  rw [findHandler_exact _ _ _ _ _ hlk,
    Handler_of_singleton_alive _ _ _ _ _ hb halive]
  rfl

theorem findHandler_after_expiry (cfg : Config) (d ip : String) (tp : Int) (t : Nat)
    (port : Int) (ht : proxyHandlerLifetime ≤ t) :
    (((NewReverseProxy cfg).AddSubdomain 0 d ip tp).findHandler t d port).2 = none ∧
    (alLookup ((alLookup
        ((((NewReverseProxy cfg).AddSubdomain 0 d ip tp).findHandler t d port).1.domainMap)
        d).getD []) port).getD [] = [] := by
  obtain ⟨ph, hdm, hP, _hpres⟩ := addSubdomain_empty_spec cfg 0 d ip tp
  have hlk : alLookup ((NewReverseProxy cfg).AddSubdomain 0 d ip tp).domainMap d = some ph := by
    rw [hdm]; simp [alLookup]
  cases hq : alLookup ph port with
  | none =>
    rw [findHandler_exact _ _ _ _ _ hlk, Handler_of_lookup_none _ _ _ hq]
    refine ⟨rfl, ?_⟩
    simp [hdm, alLookup_insert_self, alLookup, hq]
  | some b =>
    have hb := hP _ _ hq
    subst hb
    have hdead : (newProxyHandler (destUrl ip tp) 0).alive t = false := by
      simp [ProxyHandler.alive, newProxyHandler]
      omega
    rw [findHandler_exact _ _ _ _ _ hlk, Handler_of_singleton_dead _ _ _ _ _ hq hdead]
    refine ⟨rfl, ?_⟩
    simp [hdm, alInsert, alLookup, alLookup_insert_self]

theorem addSubdomainLog_no_match (r : ReverseProxy) (now : Nat) (d ip : String) (tp : Int)
    (h : ∀ v ∈ r.cfg.listen.http, v.targetPort ≠ tp) :
    (r.AddSubdomainLog now d ip tp).2 = [] ∧
    (r.AddSubdomainLog now d ip tp).1.domainMap
      = alInsert r.domainMap d ((alLookup r.domainMap d).getD []) := by
  have hfold := foldl_addStep_skip_all now d ip tp r.cfg.listen.http
      ((alLookup r.domainMap d).getD [], []) h
  simp only [ReverseProxy.AddSubdomainLog]
  rw [hfold]
  exact ⟨rfl, rfl⟩

theorem addSubdomain_no_match_domainMap (r : ReverseProxy) (now : Nat) (d ip : String)
    (tp : Int) (h : ∀ v ∈ r.cfg.listen.http, v.targetPort ≠ tp) :
    (r.AddSubdomain now d ip tp).domainMap
      = alInsert r.domainMap d ((alLookup r.domainMap d).getD []) :=
  (addSubdomainLog_no_match r now d ip tp h).2

theorem nodup_domainMap_add (r : ReverseProxy) (now : Nat) (d ip : String) (tp : Int)
    (hW : ∀ dph ∈ r.domainMap, ∀ pb ∈ dph.2, (pb.2.map Prod.fst).Nodup) :
    ∀ dph ∈ (r.AddSubdomain now d ip tp).domainMap, ∀ pb ∈ dph.2,
      (pb.2.map Prod.fst).Nodup := by
  have hph0 : ∀ pb ∈ (alLookup r.domainMap d).getD [], (pb.2.map Prod.fst).Nodup := by
    cases h1 : alLookup r.domainMap d with
    | none => simp
    | some ph => simpa using hW _ (alLookup_mem h1)
  intro dph hdph
  rcases mem_alInsert hdph with he | he
  · rw [he]
    exact nodup_foldl now d ip tp r.cfg.listen.http _ hph0
  · exact hW _ he

theorem nodup_domainMap_remove (r : ReverseProxy) (d : String)
    (hW : ∀ dph ∈ r.domainMap, ∀ pb ∈ dph.2, (pb.2.map Prod.fst).Nodup) :
    ∀ dph ∈ (r.RemoveSubdomain d).domainMap, ∀ pb ∈ dph.2,
      (pb.2.map Prod.fst).Nodup := by
  intro dph hdph
  exact hW _ ((alErase_sublist r.domainMap d).subset hdph)

theorem nodup_domainMap_findHandler (r : ReverseProxy) (now : Nat) (d : String) (p : Int)
    (hW : ∀ dph ∈ r.domainMap, ∀ pb ∈ dph.2, (pb.2.map Prod.fst).Nodup) :
    ∀ dph ∈ (r.findHandler now d p).1.domainMap, ∀ pb ∈ dph.2,
      (pb.2.map Prod.fst).Nodup := by
  unfold ReverseProxy.findHandler
  cases h1 : alLookup r.domainMap d with
  | some ph =>
    intro dph hdph
    rcases mem_alInsert hdph with he | he
    · rw [he]
      exact nodup_Handler ph now p (hW _ (alLookup_mem h1))
    · exact hW _ he
  | none =>
    cases h2 : r.domainMap.find? (fun np => pathMatch np.1 d) with
    | none => exact hW
    | some np =>
      intro dph hdph
      rcases mem_alInsert hdph with he | he
      · rw [he]
        exact nodup_Handler np.2 now p (hW _ (List.mem_of_find?_eq_some h2))
      · exact hW _ he

theorem findHandler_cfg (r : ReverseProxy) (now : Nat) (d : String) (p : Int) :
    (r.findHandler now d p).1.cfg = r.cfg := by
  unfold ReverseProxy.findHandler
  cases alLookup r.domainMap d with
  | some ph => rfl
  | none =>
    cases r.domainMap.find? (fun np => pathMatch np.1 d) with
    | none => rfl
    | some np => rfl

theorem reachable_cfg (cfg : Config) (r : ReverseProxy) (h : Reachable cfg r) :
    r.cfg = cfg := by
  induction h with
  | init => rfl
  | add r now d ip tp _ ih => exact ih
  | remove r d _ ih => exact ih
  | lookup r now d p _ ih => rw [findHandler_cfg]; exact ih

theorem reachable_nodup (cfg : Config) (r : ReverseProxy) (h : Reachable cfg r) :
    ∀ dph ∈ r.domainMap, ∀ pb ∈ dph.2, (pb.2.map Prod.fst).Nodup := by
  induction h with
  | init => intro dph hdph; simp [NewReverseProxy] at hdph
  | add r now d ip tp _ ih => exact nodup_domainMap_add r now d ip tp ih
  | remove r d _ ih => exact nodup_domainMap_remove r d ih
  | lookup r now d p _ ih => exact nodup_domainMap_findHandler r now d p ih

/-! ### Renewal of an alive handle by a repeated `AddSubdomain` -/

theorem addStep_renew (now : Nat) (sub ip : String) (tp : Int) (q : Int)
    (acc : ProxyHandlers × List String) (v : PortMap)
    (b : List (String × ProxyHandler)) (hdl : String) (dl : Nat)
    (hph : alLookup acc.1 q = some b)
    (hip : alLookup b ip = some { handler := hdl, deadline := dl })
    (halive : now < dl) :
    ∃ b2 dl2, alLookup (addStep now sub ip tp acc v).1 q = some b2 ∧
      b2.map Prod.fst = b.map Prod.fst ∧
      alLookup b2 ip = some { handler := hdl, deadline := dl2 } ∧
      now < dl2 ∧ (dl2 = dl ∨ dl2 = now + proxyHandlerLifetime) ∧
      (v.targetPort = tp → v.listenPort = q → dl2 = now + proxyHandlerLifetime) := by
  by_cases ht : v.targetPort = tp
  · by_cases hq : v.listenPort = q
    · have ha : ({ handler := hdl, deadline := dl } : ProxyHandler).alive now = true := by
        simpa [ProxyHandler.alive] using halive
      have hstep : (addStep now sub ip tp acc v).1
          = alInsert acc.1 q (alInsert b ip { handler := hdl, deadline := now + proxyHandlerLifetime }) := by
        simp only [addStep, ht, ne_eq, not_true_eq_false, if_false]
        rw [hq, existsCheck_eq_alive acc.1 now q ip b _ hph hip ha]
        rfl
      refine ⟨alInsert b ip { handler := hdl, deadline := now + proxyHandlerLifetime },
        now + proxyHandlerLifetime, ?_, ?_, ?_, ?_, Or.inr rfl, fun _ _ => rfl⟩
      · rw [hstep]
        exact alLookup_insert_self _ _ _
      · exact alInsert_map_fst_of_mem _
          (List.mem_map_of_mem Prod.fst (alLookup_mem hip))
      · exact alLookup_insert_self _ _ _
      · have : 0 < proxyHandlerLifetime := by decide
        omega
    · refine ⟨b, dl, ?_, rfl, hip, halive, Or.inl rfl, fun _ hlq => absurd hlq hq⟩
      rw [addStep_fst_frame _ _ _ _ _ _ _ (fun he => hq he.symm)]
      exact hph
  · refine ⟨b, dl, ?_, rfl, hip, halive, Or.inl rfl, fun htv _ => absurd htv ht⟩
    rw [addStep_skip _ _ _ _ _ _ ht]
    exact hph

theorem foldl_renew (now : Nat) (sub ip : String) (tp : Int) (q : Int) (l : List PortMap)
    (acc : ProxyHandlers × List String)
    (b : List (String × ProxyHandler)) (hdl : String) (dl : Nat)
    (hph : alLookup acc.1 q = some b)
    (hip : alLookup b ip = some { handler := hdl, deadline := dl })
    (halive : now < dl) :
    ∃ b2 dl2, alLookup (l.foldl (addStep now sub ip tp) acc).1 q = some b2 ∧
      b2.map Prod.fst = b.map Prod.fst ∧
      alLookup b2 ip = some { handler := hdl, deadline := dl2 } ∧
      now < dl2 ∧ (dl2 = dl ∨ dl2 = now + proxyHandlerLifetime) ∧
      ((∃ v ∈ l, v.targetPort = tp ∧ v.listenPort = q) →
        dl2 = now + proxyHandlerLifetime) := by
  induction l generalizing acc b dl with
  | nil =>
    refine ⟨b, dl, hph, rfl, hip, halive, Or.inl rfl, ?_⟩
    rintro ⟨v, hv, -⟩
    simp at hv
  | cons w rest ih =>
    obtain ⟨b1, dl1, hph1, hk1, hip1, hal1, hd1, hm1⟩ :=
      addStep_renew now sub ip tp q acc w b hdl dl hph hip halive
    obtain ⟨b2, dl2, hph2, hk2, hip2, hal2, hd2, hm2⟩ :=
      ih (addStep now sub ip tp acc w) b1 dl1 hph1 hip1 hal1
    refine ⟨b2, dl2, hph2, hk2.trans hk1, hip2, hal2, ?_, ?_⟩
    · rcases hd2 with h2 | h2
      · rcases hd1 with h1 | h1
        · exact Or.inl (h2.trans h1)
        · exact Or.inr (h2.trans h1)
      · exact Or.inr h2
    · rintro ⟨v, hv, htv, hlv⟩
      rcases List.mem_cons.mp hv with hv | hv
      · subst hv
        have h1 : dl1 = now + proxyHandlerLifetime := hm1 htv hlv
        rcases hd2 with h2 | h2
        · exact h2.trans h1
        · exact h2
      · exact hm2 ⟨v, hv, htv, hlv⟩

/-! ### Claim theorems -/

/-- C1: for every configuration, domain, address and target port, if `L` is a
statically configured HTTP listen port whose target port equals `targetPort`,
then `AddSubdomain` at `t0` followed by `findHandler` on `L`'s listen port at
any `t1` before the 30-second lifetime elapses returns found, with a handler
forwarding to `http://address:targetPort`. -/
theorem addThenLookup_found (cfg : Config) (d ip : String) (tp : Int) (L : PortMap)
    (t0 t1 : Nat) (hL : L ∈ cfg.listen.http) (htp : L.targetPort = tp)
    (ht : t1 < t0 + proxyHandlerLifetime) :
    (((NewReverseProxy cfg).AddSubdomain t0 d ip tp).findHandler t1 d L.listenPort).2
      = some (destUrl ip tp) :=
  findHandler_singleton_found cfg t0 t1 d ip tp L hL htp ht

/-- C1 witness: a concrete instance of `addThenLookup_found`. -/
theorem addThenLookup_found_witness :
    (((NewReverseProxy cfgW).AddSubdomain 0 "foo" "10.0.0.1" 5000).findHandler 10 "foo" 80).2
      = some (destUrl "10.0.0.1" 5000) :=
  addThenLookup_found cfgW "foo" "10.0.0.1" 5000 { listenPort := 80, targetPort := 5000 } 0 10
    (by decide) rfl (by decide)

/-- C2: registering (domain, address, targetPort) on a fresh table at time 0
with no subsequent renewal, `findHandler` on that domain at any port and any
time at or past the 30-second lifetime returns not-found, and the queried
port bucket of the resulting table is left empty: every expired handle the
scan encountered has been removed. -/
theorem expiredLookup_notFound_pruned (cfg : Config) (d ip : String) (tp : Int)
    (t : Nat) (port : Int) (ht : proxyHandlerLifetime ≤ t) :
    (((NewReverseProxy cfg).AddSubdomain 0 d ip tp).findHandler t d port).2 = none ∧
    (alLookup ((alLookup
        ((((NewReverseProxy cfg).AddSubdomain 0 d ip tp).findHandler t d port).1.domainMap)
        d).getD []) port).getD [] = [] :=
  findHandler_after_expiry cfg d ip tp t port ht

/-- C2 witness: a concrete instance of `expiredLookup_notFound_pruned`, with
the lookup exactly at the 30-second deadline. -/
theorem expiredLookup_notFound_pruned_witness :
    (((NewReverseProxy cfgW).AddSubdomain 0 "foo" "10.0.0.1" 5000).findHandler 30 "foo" 80).2 = none ∧
    (alLookup ((alLookup
        ((((NewReverseProxy cfgW).AddSubdomain 0 "foo" "10.0.0.1" 5000).findHandler 30 "foo" 80).1.domainMap)
        "foo").getD []) 80).getD [] = [] :=
  expiredLookup_notFound_pruned cfgW "foo" "10.0.0.1" 5000 30 80 (by decide)

/-- C3 counterexample: `AddSubdomain` stores the domain key verbatim, without
case folding — after registering the mixed-case "Foo" (with matching target
port, within the lifetime), the dispatcher's lowercased query for the same
name does not resolve, and the table holds the key "Foo", not "foo". -/
theorem caseFold_counterexample :
    (rFoo.ServeHTTPWithPort 5 "Foo.example.net" 80).2 = none ∧
    alLookup rFoo.domainMap "foo" = none ∧
    (alLookup rFoo.domainMap "Foo").isSome = true := by
  decide

/-- C3 amended: keys are case-folded to lowercase at lookup time only: the
dispatcher lowercases the request's first host label before querying, while
`AddSubdomain` stores the domain key verbatim; hence an `Add` whose key
equals the lowercased label — in particular a lowercase registration queried
in any casing — resolves to that entry. -/
theorem caseFold_lookupOnly (cfg : Config) (d ip host : String) (tp : Int) (L : PortMap)
    (t0 t1 : Nat) (hL : L ∈ cfg.listen.http) (htp : L.targetPort = tp)
    (ht : t1 < t0 + proxyHandlerLifetime)
    (hhost : toLowerStr (firstLabel host) = d) :
    (((NewReverseProxy cfg).AddSubdomain t0 d ip tp).ServeHTTPWithPort t1 host L.listenPort).2
      = some (destUrl ip tp) := by
  unfold ReverseProxy.ServeHTTPWithPort
  rw [hhost]
  exact findHandler_singleton_found cfg t0 t1 d ip tp L hL htp ht

/-- C3 witness: a lowercase registration is reached by an upper-case request. -/
theorem caseFold_lookupOnly_witness :
    (((NewReverseProxy cfgW).AddSubdomain 0 "foo" "10.0.0.1" 5000).ServeHTTPWithPort 5
        "FOO.Example.Net" 80).2
      = some (destUrl "10.0.0.1" 5000) :=
  caseFold_lookupOnly cfgW "foo" "10.0.0.1" "FOO.Example.Net" 5000
    { listenPort := 80, targetPort := 5000 } 0 5 (by decide) rfl (by decide) (by decide)

/-- C4 counterexample: the wildcard of a registered pattern does match across
a "." label boundary — with "pr-*" registered, the multi-label query
"pr-123.extra" is matched by `Exists` and resolved by `findHandler`. -/
theorem singleLevelGlob_counterexample :
    rPr.Exists "pr-123.extra" = true ∧
    (rPr.findHandler 5 "pr-123.extra" 80).2 = some (destUrl "10.0.0.1" 5000) := by
  decide

/-- C4 amended: glob matching has path-glob semantics: the wildcard matches
any sequence of non-"/" characters, so it does cross "." label boundaries —
"pr-*" matches "pr-123" and also "pr-123.extra" in `Exists` and `Lookup` —
and single-label behaviour holds only because the dispatcher queries just
the first "."-separated (lowercased) label of the request host. -/
theorem singleLevelGlob_amended :
    pathMatch "pr-*" "pr-123" = true ∧
    pathMatch "pr-*" "pr-123.extra" = true ∧
    pathMatch "pr-*" "pr-1/2" = false ∧
    rPr.Exists "pr-123" = true ∧
    rPr.Exists "pr-123.extra" = true ∧
    toLowerStr (firstLabel "pr-123.extra.dev.example.net") = "pr-123" := by
  decide

/-- C5: when the queried domain is registered as an exact key, `findHandler`
resolves via that key: the returned handle is the exact entry's bucket
selection, every other entry of the table (in particular any wildcard
pattern entry) is left untouched — the pattern scan and its pruning side
effects are not reached — and `Exists` likewise short-circuits on the exact
key. -/
theorem exactKey_precedence (r : ReverseProxy) (now : Nat) (d : String) (port : Int)
    (ph : ProxyHandlers) (h : alLookup r.domainMap d = some ph) :
    (r.findHandler now d port).2 = (ph.Handler now port).2 ∧
    (∀ k, k ≠ d → alLookup (r.findHandler now d port).1.domainMap k = alLookup r.domainMap k) ∧
    r.Exists d = true := by
  rw [findHandler_exact _ _ _ _ _ h]
  refine ⟨rfl, ?_, ?_⟩
  · intro k hk
    exact alLookup_insert_ne _ _ _ _ hk
  · simp [ReverseProxy.Exists, h]

/-- C5 witness: with "foo" and "f*" both registered, a lookup of "foo"
resolves via the exact entry and leaves the "f*" entry untouched. -/
theorem exactKey_precedence_witness :
    (rBoth.findHandler 5 "foo" 80).2
        = (ProxyHandlers.Handler
            [(80, [("10.0.0.1", newProxyHandler (destUrl "10.0.0.1" 5000) 0)])] 5 80).2 ∧
    alLookup (rBoth.findHandler 5 "foo" 80).1.domainMap "f*" = alLookup rBoth.domainMap "f*" ∧
    rBoth.Exists "foo" = true := by
  have h := exactKey_precedence rBoth 5 "foo" 80
      [(80, [("10.0.0.1", newProxyHandler (destUrl "10.0.0.1" 5000) 0)])] (by decide)
  exact ⟨h.1, h.2.1 "f*" (by decide), h.2.2⟩

/-- C6: `Exists` reports true for every registered domain — whether the query
equals a registered key or glob-matches a registered pattern — regardless of
the entry's bucket contents and of handle liveness: the entry's value `ph`
is arbitrary (possibly empty, possibly holding only expired handles), and
`Exists` takes no time instant, so deadlines cannot influence it; being a
pure read, it performs no mutation of the table by construction. -/
theorem exists_ignores_liveness (r : ReverseProxy) (d name : String) (ph : ProxyHandlers)
    (h : alLookup r.domainMap name = some ph)
    (hm : name = d ∨ pathMatch name d = true) :
    r.Exists d = true := by
  rcases hm with hm | hm
  · subst hm
    simp [ReverseProxy.Exists, h]
  · have hmem : (name, ph) ∈ r.domainMap := alLookup_mem h
    unfold ReverseProxy.Exists
    simp only [Bool.or_eq_true]
    right
    rw [List.any_eq_true]
    exact ⟨(name, ph), hmem, hm⟩

/-- C6 witness: a domain whose only port bucket holds no handles at all still
reports exists=true. -/
theorem exists_ignores_liveness_witness : rDead.Exists "dead" = true :=
  exists_ignores_liveness rDead "dead" "dead" [(80, [])] (by decide) (Or.inl rfl)

/-- C8 counterexample: an `AddSubdomain` whose target port matches no
configured HTTP listen port emits no log line at all — in particular no
message recording that no listen port matched (the no-bucket and no-error
parts of the claim do hold: the domain is stored with an empty bucket set
and the call returns normally). -/
theorem addNoMatch_counterexample :
    ((NewReverseProxy cfgW).AddSubdomainLog 0 "foo" "10.0.0.1" 9999).2 = [] ∧
    alLookup ((NewReverseProxy cfgW).AddSubdomainLog 0 "foo" "10.0.0.1" 9999).1.domainMap "foo"
      = some [] := by
  decide

/-- C8 amended: for every `AddSubdomain` whose target port matches no
configured HTTP listen-port mapping, the call creates no port bucket and
surfaces no error to the caller (it is total and returns normally), but it
emits no log message either — the loop body never runs, so the call is
entirely silent and only re-stores the domain's previous (or fresh empty)
bucket set under its key. -/
theorem addNoMatch_silent (r : ReverseProxy) (now : Nat) (d ip : String) (tp : Int)
    (h : ∀ v ∈ r.cfg.listen.http, v.targetPort ≠ tp) :
    (r.AddSubdomainLog now d ip tp).2 = [] ∧
    (r.AddSubdomainLog now d ip tp).1.domainMap
      = alInsert r.domainMap d ((alLookup r.domainMap d).getD []) :=
  addSubdomainLog_no_match r now d ip tp h

/-- C8 witness: a concrete instance of `addNoMatch_silent`. -/
theorem addNoMatch_silent_witness :
    ((NewReverseProxy cfgHttps).AddSubdomainLog 0 "bar" "10.0.0.9" 7777).2 = [] ∧
    ((NewReverseProxy cfgHttps).AddSubdomainLog 0 "bar" "10.0.0.9" 7777).1.domainMap
      = alInsert (NewReverseProxy cfgHttps).domainMap "bar"
          ((alLookup (NewReverseProxy cfgHttps).domainMap "bar").getD []) :=
  addNoMatch_silent (NewReverseProxy cfgHttps) 0 "bar" "10.0.0.9" 7777 (by decide)

/-- C9: `AddSubdomain` on an unregistered domain whose target port matches no
configured HTTP listen port still inserts the domain key, mapped to an empty
bucket set: `Exists` then reports true, `Subdomains` includes the domain, and
`findHandler` on the domain returns not-found for every port at every time. -/
theorem addNoMatch_registers_empty (r : ReverseProxy) (now : Nat) (d ip : String) (tp : Int)
    (hd : alLookup r.domainMap d = none)
    (h : ∀ v ∈ r.cfg.listen.http, v.targetPort ≠ tp) :
    alLookup (r.AddSubdomain now d ip tp).domainMap d = some [] ∧
    (r.AddSubdomain now d ip tp).Exists d = true ∧
    d ∈ (r.AddSubdomain now d ip tp).Subdomains ∧
    ∀ (p : Int) (t : Nat), ((r.AddSubdomain now d ip tp).findHandler t d p).2 = none := by
  have hmap : (r.AddSubdomain now d ip tp).domainMap = alInsert r.domainMap d [] := by
    rw [addSubdomain_no_match_domainMap r now d ip tp h, hd]
    rfl
  have hlk : alLookup (r.AddSubdomain now d ip tp).domainMap d = some [] := by
    rw [hmap]
    exact alLookup_insert_self _ _ _
  refine ⟨hlk, ?_, ?_, ?_⟩
  · simp [ReverseProxy.Exists, hlk]
  · exact List.mem_map_of_mem Prod.fst (alLookup_mem hlk)
  · intro p t
    rw [findHandler_exact _ _ _ _ _ hlk, Handler_of_lookup_none _ _ _ (by simp [alLookup])]

/-- C9 witness: a concrete instance of `addNoMatch_registers_empty`. -/
theorem addNoMatch_registers_empty_witness :
    alLookup ((NewReverseProxy cfgW).AddSubdomain 3 "bar" "10.0.0.9" 7777).domainMap "bar"
      = some [] ∧
    ((NewReverseProxy cfgW).AddSubdomain 3 "bar" "10.0.0.9" 7777).Exists "bar" = true ∧
    "bar" ∈ ((NewReverseProxy cfgW).AddSubdomain 3 "bar" "10.0.0.9" 7777).Subdomains ∧
    (((NewReverseProxy cfgW).AddSubdomain 3 "bar" "10.0.0.9" 7777).findHandler 99 "bar" 80).2
      = none := by
  have h := addNoMatch_registers_empty (NewReverseProxy cfgW) 3 "bar" "10.0.0.9" 7777
    (by decide) (by decide)
  exact ⟨h.1, h.2.1, h.2.2.1, h.2.2.2 80 99⟩

/-- C10: `AddSubdomain` only creates or renews buckets at listen ports of the
HTTP mapping list: for any port that appears in the HTTPS list but in no HTTP
mapping, every domain's bucket for that port is identical before and after
the call. -/
theorem add_frame_httpsOnly (r : ReverseProxy) (now : Nat) (d ip : String) (tp : Int)
    (p : Int) (_hhttps : p ∈ r.cfg.listen.https.map PortMap.listenPort)
    (hhttp : p ∉ r.cfg.listen.http.map PortMap.listenPort) :
    ∀ d' : String,
      alLookup ((alLookup (r.AddSubdomain now d ip tp).domainMap d').getD []) p
        = alLookup ((alLookup r.domainMap d').getD []) p := by
  intro d'
  have hmap : (r.AddSubdomain now d ip tp).domainMap
      = alInsert r.domainMap d (r.cfg.listen.http.foldl (addStep now d ip tp)
          ((alLookup r.domainMap d).getD [], [])).1 := rfl
  by_cases hd : d' = d
  · subst hd
    rw [hmap, alLookup_insert_self]
    have hfr := foldl_addStep_port_frame now d' ip tp r.cfg.listen.http
        ((alLookup r.domainMap d').getD [], []) p
        (fun v hv he => hhttp (he ▸ List.mem_map_of_mem PortMap.listenPort hv))
    simpa using hfr
  · rw [hmap, alLookup_insert_ne _ _ _ _ hd]

/-- C10 witness: a concrete instance of `add_frame_httpsOnly`: port 443
appears only in the HTTPS list, and the added domain gets no bucket for it. -/
theorem add_frame_httpsOnly_witness :
    alLookup ((alLookup ((NewReverseProxy cfgHttps).AddSubdomain 0 "bar" "10.0.0.1"
        5000).domainMap "bar").getD []) 443
      = alLookup ((alLookup (NewReverseProxy cfgHttps).domainMap "bar").getD []) 443 :=
  add_frame_httpsOnly (NewReverseProxy cfgHttps) 0 "bar" "10.0.0.1" 5000 443
    (by decide) (by decide) "bar"

/-- C7: in every table state reachable by the routing-table operations, each
(domain, listen-port) bucket contains at most one handle per backend address
(its address-key list has no duplicates); and a repeated `AddSubdomain` for a
(domain, address, targetPort) triple whose handle for `address` is still
alive renews rather than duplicates: afterwards the bucket has exactly the
same address keys (no second entry), the handle keeps its destination, its
deadline is either untouched or reset to now + 30s, and on every configured
HTTP listen port matching `targetPort` it is necessarily reset. -/
theorem reachable_bucketUnique_renew (cfg : Config) (r : ReverseProxy)
    (hr : Reachable cfg r) :
    (∀ dph ∈ r.domainMap, ∀ pb ∈ dph.2, (pb.2.map Prod.fst).Nodup) ∧
    (∀ (now : Nat) (d ip : String) (tp : Int) (q : Int)
        (b : List (String × ProxyHandler)) (hdl : String) (dl : Nat),
      alLookup ((alLookup r.domainMap d).getD []) q = some b →
      alLookup b ip = some { handler := hdl, deadline := dl } →
      now < dl →
      ∃ b2 dl2,
        alLookup ((alLookup (r.AddSubdomain now d ip tp).domainMap d).getD []) q = some b2 ∧
        b2.map Prod.fst = b.map Prod.fst ∧
        alLookup b2 ip = some { handler := hdl, deadline := dl2 } ∧
        now < dl2 ∧ (dl2 = dl ∨ dl2 = now + proxyHandlerLifetime) ∧
        ((∃ v ∈ cfg.listen.http, v.targetPort = tp ∧ v.listenPort = q) →
          dl2 = now + proxyHandlerLifetime)) := by
  refine ⟨reachable_nodup cfg r hr, ?_⟩
  intro now d ip tp q b hdl dl hph hip halive
  have hcfg : r.cfg = cfg := reachable_cfg cfg r hr
  have hmap : (r.AddSubdomain now d ip tp).domainMap
      = alInsert r.domainMap d (r.cfg.listen.http.foldl (addStep now d ip tp)
          ((alLookup r.domainMap d).getD [], [])).1 := rfl
  obtain ⟨b2, dl2, h1, h2, h3, h4, h5, h6⟩ :=
    foldl_renew now d ip tp q r.cfg.listen.http ((alLookup r.domainMap d).getD [], [])
      b hdl dl hph hip halive
  refine ⟨b2, dl2, ?_, h2, h3, h4, h5, ?_⟩
  · rw [hmap, alLookup_insert_self]
    exact h1
  · intro hex
    exact h6 (by rwa [hcfg])

/-- C7 witness: the reachable two-domain table `rBoth`, its per-bucket
address uniqueness, and a renewing repeated `AddSubdomain` of the same triple
at time 10 while the handle (deadline 30) is alive. -/
theorem reachable_bucketUnique_renew_witness :
    (∀ dph ∈ rBoth.domainMap, ∀ pb ∈ dph.2, (pb.2.map Prod.fst).Nodup) ∧
    (∃ b2 dl2,
      alLookup ((alLookup (rBoth.AddSubdomain 10 "foo" "10.0.0.1" 5000).domainMap
          "foo").getD []) 80 = some b2 ∧
      b2.map Prod.fst
        = ([("10.0.0.1", { handler := "http://10.0.0.1:5000", deadline := 30 })] :
            List (String × ProxyHandler)).map Prod.fst ∧
      alLookup b2 "10.0.0.1" = some { handler := "http://10.0.0.1:5000", deadline := dl2 } ∧
      10 < dl2 ∧ (dl2 = 30 ∨ dl2 = 10 + proxyHandlerLifetime) ∧
      ((∃ v ∈ cfgW.listen.http, v.targetPort = 5000 ∧ v.listenPort = 80) →
        dl2 = 10 + proxyHandlerLifetime)) := by
  have h := reachable_bucketUnique_renew cfgW rBoth
    (Reachable.add _ 0 "f*" "10.0.0.2" 5000
      (Reachable.add _ 0 "foo" "10.0.0.1" 5000 Reachable.init))
  exact ⟨h.1, h.2 10 "foo" "10.0.0.1" 5000 80
      [("10.0.0.1", { handler := "http://10.0.0.1:5000", deadline := 30 })]
      "http://10.0.0.1:5000" 30 (by decide) (by decide) (by decide)⟩

end Mirage
